import Mathlib

/-!
Verification development for the Logico logic-circuit simulator.

The engine is embedded shallowly:
* pins, wires and their connection protocol from `src/core/Pin.js` and
  `src/core/Wire.js`;
* the DFS-based evaluation-order resolver from
  `src/engine/Simulator.js` (`topologicalSort`);
* a component-level circuit model for `Simulator.evaluate`/`reset` and
  `SubcircuitComponent.evaluate`;
* the serialization round trip from `src/core/Circuit.js`
  (`serialize`/`deserialize`) and the subcircuit deletion guard from
  `src/app/App.js`.

Machine integers do not occur (all circuit values are booleans, ids are
small naturals, timestamps are integers), so `Nat`/`Int` are used directly.
-/

namespace Logico

/-! ## Pins (src/core/Pin.js)

A `Pin` carries its type (`'input'`/`'output'`), the stored boolean value
and the list of ids of wires attached to it (`connectedWires`).  The owner
component and geometric offsets play no role in the claims below and are
omitted. -/

inductive PinType where
  | input
  | output
deriving DecidableEq, Repr

structure Pin where
  ptype : PinType
  value : Bool
  connectedWires : List Nat
deriving DecidableEq, Repr

/-- `Pin.getValue`: an input pin with no connections reads `false`,
otherwise the stored value is returned. -/
def Pin.getValue (p : Pin) : Bool :=
  if p.ptype = PinType.input ∧ p.connectedWires = [] then false else p.value

/-- `Pin.connectWire`: the wire is appended only if it is not already in
`connectedWires`. -/
def Pin.connectWire (p : Pin) (w : Nat) : Pin :=
  if w ∈ p.connectedWires then p
  else { p with connectedWires := p.connectedWires ++ [w] }

/-- `Pin.disconnectWire`: if the wire is attached it is spliced out
(first occurrence), and an input pin additionally has its value reset to
`false`. -/
def Pin.disconnectWire (p : Pin) (w : Nat) : Pin :=
  if w ∈ p.connectedWires then
    { p with
      connectedWires := p.connectedWires.erase w,
      value := if p.ptype = PinType.input then false else p.value }
  else p

/-! ### A network of pins, for `Pin.setValue` propagation

`Pin.setValue` on an output pin forward-propagates through every attached
wire whose source is that pin, by calling `setValue` on the wire's target
pin.  The recursion is modelled with a fuel argument (the JS recursion
depth is bounded by the number of pins whose value actually changes, since
`setValue` is a no-op when the value is unchanged). -/

structure PinNet where
  pins : List (Nat × Pin)
  wires : List (Nat × Nat × Nat)  -- (wire id, source pin id, target pin id)
deriving DecidableEq, Repr

def PinNet.findPin (net : PinNet) (pid : Nat) : Option Pin :=
  (net.pins.find? (fun q => q.1 == pid)).map Prod.snd

def PinNet.findWire (net : PinNet) (wid : Nat) : Option (Nat × Nat) :=
  (net.wires.find? (fun q => q.1 == wid)).map Prod.snd

def PinNet.writeValue (net : PinNet) (pid : Nat) (v : Bool) : PinNet :=
  { net with
    pins := net.pins.map (fun q =>
      if q.1 = pid then (q.1, { q.2 with value := v }) else q) }

/-- `Pin.setValue`, returning the updated network together with the list of
propagation calls `(target pin id, value)` issued to downstream pins.
A call on a pin already holding `v` is a no-op and issues no propagation. -/
def PinNet.setValue : Nat → PinNet → Nat → Bool → PinNet × List (Nat × Bool)
  | 0, net, _, _ => (net, [])
  | fuel + 1, net, pid, v =>
    match net.findPin pid with
    | none => (net, [])
    | some p =>
      if p.value = v then (net, [])
      else
        let net1 := net.writeValue pid v
        if p.ptype = PinType.output then
          p.connectedWires.foldl
            (fun (acc : PinNet × List (Nat × Bool)) wid =>
              match acc.1.findWire wid with
              | some ft =>
                if ft.1 = pid then
                  let r := PinNet.setValue fuel acc.1 ft.2 v
                  (r.1, acc.2 ++ (ft.2, v) :: r.2)
                else acc
              | none => acc)
            (net1, [])
        else (net1, [])

/-! ## Clock (src/components/InputOutput.js, `Clock.update`)

`update(timestamp)` flips the boolean state and records the timestamp when
`timestamp - lastToggle >= period / 2`.  Timestamps and the period are
integers here; the JS comparison `t - lastToggle >= period / 2` over exact
arithmetic is equivalent to `2 * (t - lastToggle) >= period`, which is the
form used below. -/

structure Clock where
  state : Bool
  period : Int
  lastToggle : Int
deriving DecidableEq, Repr

def Clock.update (c : Clock) (t : Int) : Clock :=
  if c.period ≤ 2 * (t - c.lastToggle) then
    { state := !c.state, period := c.period, lastToggle := t }
  else c

/-- Run `update` over a list of timestamps, collecting the timestamps at
which the state toggled. -/
def Clock.run (c : Clock) (ts : List Int) : Clock × List Int :=
  ts.foldl
    (fun (acc : Clock × List Int) t =>
      let c' := acc.1.update t
      (c', if c'.state = acc.1.state then acc.2 else acc.2 ++ [t]))
    (c, [])

/-! ## Wire completion (src/ui/InteractionManager.js, mouse-up handler)

When a wire being drawn is dropped on a pin, a new `Wire` is created only
if the drop target is an input pin different from the start pin and no
wire with the same `fromPin` and the same `toPin` already exists. -/

structure UIWire where
  wid : Nat
  fromPid : Nat
  toPid : Nat
deriving DecidableEq, Repr

structure UICircuit where
  wires : List UIWire
  nextWireId : Nat
deriving DecidableEq, Repr

/-- The wire-completion step of `InteractionManager.onMouseUp`, restricted
to its effect on the circuit's wire list.  `ptypeOf` gives each pin's type
(the drop target must be an input pin). -/
def completeWire (ptypeOf : Nat → PinType) (c : UICircuit)
    (startPid endPid : Nat) : UICircuit :=
  if ptypeOf endPid = PinType.input ∧ endPid ≠ startPid then
    if (c.wires.find? (fun w => w.fromPid == startPid && w.toPid == endPid)).isSome then
      c
    else
      { wires := c.wires ++ [⟨c.nextWireId, startPid, endPid⟩],
        nextWireId := c.nextWireId + 1 }
  else c

/-! ## Evaluation-order resolver (src/engine/Simulator.js, `topologicalSort`)

Components are identified by their (distinct) ids.  The adjacency of a
component `u` is the list of targets of wires leaving `u`, in wire-list
order, restricted to wires whose both endpoints are components of the
circuit (`graph.has(from) && graph.has(to)`).

The DFS marks a node visited on entry, visits all its successors, and
prepends the node to the result on exit (`result.unshift`).  The JS
recursion is modelled with a fuel argument: every nested `visit` level
marks one previously unvisited component, so `comps.length + 1` units of
fuel are always sufficient. -/

def adjOf (comps : List Nat) (wires : List (Nat × Nat)) (u : Nat) : List Nat :=
  (wires.filter (fun w => decide (w.1 = u ∧ w.1 ∈ comps ∧ w.2 ∈ comps))).map
    Prod.snd

structure DfsState where
  visited : List Nat
  result : List Nat
deriving DecidableEq, Repr

def dfsVisit (adj : Nat → List Nat) : Nat → Nat → DfsState → DfsState
  | 0, _, s => s
  | fuel + 1, u, s =>
    if u ∈ s.visited then s
    else
      let s2 := (adj u).foldl (fun acc v => dfsVisit adj fuel v acc)
        ⟨u :: s.visited, s.result⟩
      ⟨s2.visited, u :: s2.result⟩

/-- The `forEach`-style loop visiting each node of `l` in order. -/
def dfsVisitList (adj : Nat → List Nat) (fuel : Nat) (l : List Nat)
    (s : DfsState) : DfsState :=
  l.foldl (fun acc v => dfsVisit adj fuel v acc) s

lemma dfsVisitList_nil (adj : Nat → List Nat) (fuel : Nat) (s : DfsState) :
    dfsVisitList adj fuel [] s = s := rfl

lemma dfsVisitList_cons (adj : Nat → List Nat) (fuel : Nat) (v : Nat)
    (rest : List Nat) (s : DfsState) :
    dfsVisitList adj fuel (v :: rest) s =
      dfsVisitList adj fuel rest (dfsVisit adj fuel v s) := rfl

/-- `Simulator.topologicalSort`: visit every component in container order,
skipping already-visited ones, and return the accumulated result. -/
def topologicalSort (comps : List Nat) (wires : List (Nat × Nat)) : List Nat :=
  (dfsVisitList (adjOf comps wires) (comps.length + 1) comps ⟨[], []⟩).result

/-! ### Correctness of the resolver -/

/-- The edge relation induced by an adjacency function. -/
def edgeStep (adj : Nat → List Nat) : Nat → Nat → Prop :=
  fun x y => y ∈ adj x

/-- The wire graph is acyclic: no edge closes a directed cycle. -/
def AcyclicAdj (adj : Nat → List Nat) : Prop :=
  ∀ a b, b ∈ adj a → ¬ Relation.ReflTransGen (edgeStep adj) b a

/-- `TopoOk adj l` holds when every node of `l` lists all its successors
strictly later in `l`. -/
def TopoOk (adj : Nat → List Nat) : List Nat → Prop
  | [] => True
  | a :: r => (∀ b ∈ adj a, b ∈ r) ∧ TopoOk adj r

/-- Number of components not yet visited (the termination measure of the
DFS fuel argument). -/
def countUnvisited (comps : List Nat) (s : DfsState) : Nat :=
  (comps.toFinset \ s.visited.toFinset).card

lemma countUnvisited_mono {comps : List Nat} {s s' : DfsState}
    (h : s.visited ⊆ s'.visited) :
    countUnvisited comps s' ≤ countUnvisited comps s := by
  apply Finset.card_le_card
  intro x hx
  simp only [Finset.mem_sdiff, List.mem_toFinset] at hx ⊢
  exact ⟨hx.1, fun hm => hx.2 (h hm)⟩

lemma countUnvisited_push_lt {comps : List Nat} {s : DfsState} {u : Nat}
    {r : List Nat} (hu : u ∈ comps) (hnv : u ∉ s.visited) :
    countUnvisited comps ⟨u :: s.visited, r⟩ < countUnvisited comps s := by
  apply Finset.card_lt_card
  constructor
  · intro x hx
    simp only [Finset.mem_sdiff, List.mem_toFinset, List.mem_cons] at hx ⊢
    exact ⟨hx.1, fun hm => hx.2 (Or.inr hm)⟩
  · intro hsub
    have : u ∈ comps.toFinset \ s.visited.toFinset := by
      simp only [Finset.mem_sdiff, List.mem_toFinset]
      exact ⟨hu, hnv⟩
    have h2 := hsub this
    rw [Finset.mem_sdiff] at h2
    exact h2.2 (by simp)

lemma mem_adjOf {comps : List Nat} {wires : List (Nat × Nat)} {u v : Nat} :
    v ∈ adjOf comps wires u ↔ ((u, v) ∈ wires ∧ u ∈ comps ∧ v ∈ comps) := by
  unfold adjOf
  rw [List.mem_map]
  constructor
  · rintro ⟨w, hw, rfl⟩
    rw [List.mem_filter] at hw
    obtain ⟨hwm, hcond⟩ := hw
    rw [decide_eq_true_iff] at hcond
    obtain ⟨h1, h2, h3⟩ := hcond
    subst h1
    exact ⟨by simpa using hwm, h2, h3⟩
  · rintro ⟨hw, hu, hv⟩
    refine ⟨(u, v), ?_, rfl⟩
    rw [List.mem_filter, decide_eq_true_iff]
    exact ⟨hw, rfl, hu, hv⟩

/-- The DFS invariant: `grey` is the set of nodes currently on the visit
stack.  `visited` is exactly `result ∪ grey`, the finished `result` is
duplicate-free, is (under acyclicity) topologically sorted, and only
components of the circuit are ever visited. -/
structure DfsInv (adj : Nat → List Nat) (comps : List Nat) (s : DfsState)
    (grey : List Nat) : Prop where
  mem_iff : ∀ x, x ∈ s.visited ↔ (x ∈ s.result ∨ x ∈ grey)
  disj : ∀ x ∈ s.result, x ∉ grey
  nodupR : s.result.Nodup
  topo : AcyclicAdj adj → TopoOk adj s.result
  sub : ∀ x ∈ s.visited, x ∈ comps

def VisitSpec (adj : Nat → List Nat) (comps : List Nat) (fuel : Nat) : Prop :=
  ∀ u s grey, countUnvisited comps s < fuel → u ∈ comps →
    DfsInv adj comps s grey →
    (∀ g ∈ grey, Relation.ReflTransGen (edgeStep adj) g u) →
    DfsInv adj comps (dfsVisit adj fuel u s) grey ∧
    s.visited ⊆ (dfsVisit adj fuel u s).visited ∧
    u ∈ (dfsVisit adj fuel u s).visited

lemma dfsVisitList_spec (adj : Nat → List Nat) (comps : List Nat)
    (fuel : Nat) (hvisit : VisitSpec adj comps fuel) :
    ∀ l s grey, countUnvisited comps s < fuel → (∀ v ∈ l, v ∈ comps) →
      DfsInv adj comps s grey →
      (∀ g ∈ grey, ∀ v ∈ l, Relation.ReflTransGen (edgeStep adj) g v) →
      DfsInv adj comps (dfsVisitList adj fuel l s) grey ∧
      s.visited ⊆ (dfsVisitList adj fuel l s).visited ∧
      (∀ v ∈ l, v ∈ (dfsVisitList adj fuel l s).visited) := by
  intro l
  induction l with
  | nil =>
    intro s grey hc _ hinv _
    have heq : dfsVisitList adj fuel [] s = s := by simp [dfsVisitList]
    rw [heq]
    exact ⟨hinv, fun _ h => h, by simp⟩
  | cons v rest ih =>
    intro s grey hc hmem hinv hreach
    obtain ⟨hinv1, hsub1, hv1⟩ :=
      hvisit v s grey hc (hmem v (by simp)) hinv
        (fun g hg => hreach g hg v (by simp))
    have hc1 : countUnvisited comps (dfsVisit adj fuel v s) < fuel :=
      lt_of_le_of_lt (countUnvisited_mono hsub1) hc
    obtain ⟨hinv2, hsub2, hall2⟩ :=
      ih (dfsVisit adj fuel v s) grey hc1
        (fun w hw => hmem w (by simp [hw])) hinv1
        (fun g hg w hw => hreach g hg w (by simp [hw]))
    have hstep : dfsVisitList adj fuel (v :: rest) s =
        dfsVisitList adj fuel rest (dfsVisit adj fuel v s) := by
      simp [dfsVisitList]
    rw [hstep]
    refine ⟨hinv2, fun x hx => hsub2 (hsub1 hx), ?_⟩
    intro w hw
    rcases List.mem_cons.1 hw with rfl | hw'
    · exact hsub2 hv1
    · exact hall2 w hw'

lemma dfsVisit_spec (adj : Nat → List Nat) (comps : List Nat)
    (hadj : ∀ u v, v ∈ adj u → v ∈ comps) :
    ∀ fuel, VisitSpec adj comps fuel := by
  intro fuel
  induction fuel with
  | zero => intro u s grey hc; exact absurd hc (Nat.not_lt_zero _)
  | succ f ih =>
    intro u s grey hc hu hinv hreach
    by_cases hvis : u ∈ s.visited
    · have heq : dfsVisit adj (f + 1) u s = s := by
        simp [dfsVisit, hvis]
      rw [heq]
      exact ⟨hinv, fun _ h => h, hvis⟩
    · have heq : dfsVisit adj (f + 1) u s =
          ⟨(dfsVisitList adj f (adj u) ⟨u :: s.visited, s.result⟩).visited,
           u :: (dfsVisitList adj f (adj u) ⟨u :: s.visited, s.result⟩).result⟩ := by
        simp [dfsVisit, dfsVisitList, hvis]
      set s1 : DfsState := ⟨u :: s.visited, s.result⟩ with hs1
      have hinv1 : DfsInv adj comps s1 (u :: grey) := by
        refine ⟨?_, ?_, hinv.nodupR, hinv.topo, ?_⟩
        · intro x
          constructor
          · intro hx
            rcases List.mem_cons.1 hx with rfl | hx'
            · exact Or.inr (List.mem_cons_self _ _)
            · rcases (hinv.mem_iff x).1 hx' with hr | hg
              · exact Or.inl hr
              · exact Or.inr (List.mem_cons_of_mem _ hg)
          · intro hx
            rcases hx with hr | hg
            · exact List.mem_cons_of_mem _ ((hinv.mem_iff x).2 (Or.inl hr))
            · rcases List.mem_cons.1 hg with rfl | hg'
              · exact List.mem_cons_self _ _
              · exact List.mem_cons_of_mem _ ((hinv.mem_iff x).2 (Or.inr hg'))
        · intro x hx hmem
          rcases List.mem_cons.1 hmem with rfl | hg
          · exact hvis ((hinv.mem_iff x).2 (Or.inl hx))
          · exact hinv.disj x hx hg
        · intro x hx
          rcases List.mem_cons.1 hx with rfl | hx'
          · exact hu
          · exact hinv.sub x hx'
      have hc1 : countUnvisited comps s1 < f := by
        have h1 : countUnvisited comps s1 < countUnvisited comps s :=
          countUnvisited_push_lt hu hvis
        omega
      obtain ⟨hinv2, hsub2, hall2⟩ :=
        dfsVisitList_spec adj comps f ih (adj u) s1 (u :: grey) hc1
          (fun v hv => hadj u v hv) hinv1
          (fun g hg v hv => by
            rcases List.mem_cons.1 hg with rfl | hg'
            · exact Relation.ReflTransGen.single hv
            · exact (hreach g hg').tail hv)
      set s2 := dfsVisitList adj f (adj u) s1 with hs2
      have hug : u ∉ grey := fun hg => hvis ((hinv.mem_iff u).2 (Or.inr hg))
      have hur : u ∉ s2.result := fun hr =>
        hinv2.disj u hr (List.mem_cons_self _ _)
      rw [heq]
      refine ⟨⟨?_, ?_, ?_, ?_, ?_⟩, ?_, ?_⟩
      · intro x
        simp only
        rw [hinv2.mem_iff x]
        constructor
        · rintro (hr | hg)
          · exact Or.inl (List.mem_cons_of_mem _ hr)
          · rcases List.mem_cons.1 hg with rfl | hg'
            · exact Or.inl (List.mem_cons_self _ _)
            · exact Or.inr hg'
        · rintro (hr | hg)
          · rcases List.mem_cons.1 hr with rfl | hr'
            · exact Or.inr (List.mem_cons_self _ _)
            · exact Or.inl hr'
          · exact Or.inr (List.mem_cons_of_mem _ hg)
      · intro x hx hg
        rcases List.mem_cons.1 hx with rfl | hr
        · exact hug hg
        · exact hinv2.disj x hr (List.mem_cons_of_mem _ hg)
      · exact List.nodup_cons.2 ⟨hur, hinv2.nodupR⟩
      · intro hacyc
        have hclosure : ∀ b ∈ adj u, b ∈ s2.result := by
          intro b hb
          have hbv := hall2 b hb
          rcases (hinv2.mem_iff b).1 hbv with hr | hg
          · exact hr
          · rcases List.mem_cons.1 hg with heq | hg'
            · exact absurd Relation.ReflTransGen.refl (hacyc u u (heq ▸ hb))
            · exact absurd (hreach b hg') (hacyc u b hb)
        exact ⟨hclosure, hinv2.topo hacyc⟩
      · exact hinv2.sub
      · intro x hx
        exact hsub2 (List.mem_cons_of_mem _ hx)
      · exact hsub2 (List.mem_cons_self _ _)

lemma topoOk_indexOf {adj : Nat → List Nat} :
    ∀ {r : List Nat}, TopoOk adj r → r.Nodup →
      ∀ a b, a ∈ r → b ∈ adj a →
        r.indexOf a < r.indexOf b ∧ b ∈ r := by
  intro r
  induction r with
  | nil => intro _ _ a b ha; simp at ha
  | cons c rest ih =>
    intro htopo hnd a b ha hb
    obtain ⟨hcl, ht⟩ := htopo
    obtain ⟨hcnotin, hndrest⟩ := List.nodup_cons.1 hnd
    rcases List.mem_cons.1 ha with rfl | ha'
    · have hbrest : b ∈ rest := hcl b hb
      have hbc : a ≠ b := fun h => hcnotin (h ▸ hbrest)
      constructor
      · rw [List.indexOf_cons_self, List.indexOf_cons_ne _ hbc]
        exact Nat.succ_pos _
      · exact List.mem_cons_of_mem _ hbrest
    · obtain ⟨hlt, hbrest⟩ := ih ht hndrest a b ha' hb
      have hca : c ≠ a := fun h => hcnotin (h ▸ ha')
      have hcb : c ≠ b := fun h => hcnotin (h ▸ hbrest)
      constructor
      · rw [List.indexOf_cons_ne _ hca, List.indexOf_cons_ne _ hcb]
        exact Nat.succ_lt_succ hlt
      · exact List.mem_cons_of_mem _ hbrest

/-- The resolver's combined specification: the returned sequence is always
a permutation of the component list, and when the wire graph is acyclic
every edge source precedes its target. -/
lemma topologicalSort_main (comps : List Nat) (wires : List (Nat × Nat))
    (hnd : comps.Nodup) :
    (topologicalSort comps wires).Perm comps ∧
    (AcyclicAdj (adjOf comps wires) →
      ∀ a b, b ∈ adjOf comps wires a →
        (topologicalSort comps wires).indexOf a <
          (topologicalSort comps wires).indexOf b) := by
  have hadj : ∀ u v, v ∈ adjOf comps wires u → v ∈ comps :=
    fun u v hv => (mem_adjOf.1 hv).2.2
  have hc0 : countUnvisited comps ⟨[], []⟩ < comps.length + 1 := by
    unfold countUnvisited
    simp only [List.toFinset_nil, Finset.sdiff_empty]
    exact Nat.lt_succ_of_le comps.toFinset_card_le
  have hinv0 : DfsInv (adjOf comps wires) comps ⟨[], []⟩ [] := by
    refine ⟨?_, ?_, List.nodup_nil, ?_, ?_⟩ <;> simp [TopoOk]
  obtain ⟨hinv, _, hall⟩ :=
    dfsVisitList_spec (adjOf comps wires) comps (comps.length + 1)
      (dfsVisit_spec (adjOf comps wires) comps hadj (comps.length + 1))
      comps ⟨[], []⟩ [] hc0 (fun v hv => hv) hinv0 (by simp)
  set s : DfsState := dfsVisitList (adjOf comps wires) (comps.length + 1)
      comps ⟨[], []⟩ with hs
  have hts : topologicalSort comps wires = s.result := rfl
  have hmemres : ∀ x, x ∈ s.result ↔ x ∈ comps := by
    intro x
    constructor
    · intro hx
      exact hinv.sub x ((hinv.mem_iff x).2 (Or.inl hx))
    · intro hx
      rcases (hinv.mem_iff x).1 (hall x hx) with hr | hg
      · exact hr
      · simp at hg
  constructor
  · rw [hts]
    apply List.perm_of_nodup_nodup_toFinset_eq hinv.nodupR hnd
    ext x
    simp only [List.mem_toFinset]
    exact hmemres x
  · intro hacyc a b hedge
    rw [hts]
    exact (topoOk_indexOf (hinv.topo hacyc) hinv.nodupR a b
      ((hmemres a).2 ((mem_adjOf.1 hedge).2.1)) hedge).1

/-- C1: for every circuit whose wire graph is acyclic,
`Simulator.topologicalSort` returns a sequence containing every component
of the circuit exactly once, and for every wire from component `A` to
component `B`, `A` precedes `B` in that sequence. -/
theorem topologicalSort_correct (comps : List Nat) (wires : List (Nat × Nat))
    (hnd : comps.Nodup) (hacyc : AcyclicAdj (adjOf comps wires)) :
    (topologicalSort comps wires).Perm comps ∧
    ∀ w ∈ wires, w.1 ∈ comps → w.2 ∈ comps →
      (topologicalSort comps wires).indexOf w.1 <
        (topologicalSort comps wires).indexOf w.2 := by
  obtain ⟨hperm, hord⟩ := topologicalSort_main comps wires hnd
  refine ⟨hperm, ?_⟩
  intro w hw h1 h2
  apply hord hacyc
  rw [mem_adjOf]
  refine ⟨?_, h1, h2⟩
  rw [show ((w.1 : Nat), (w.2 : Nat)) = w from rfl]
  exact hw

/-- A concrete acyclic two-wire chain `0 → 1 → 2` for the resolver. -/
lemma chain_acyclic : AcyclicAdj (adjOf [0, 1, 2] [(0, 1), (1, 2)]) := by
  have hedge : ∀ a b : Nat, edgeStep (adjOf [0, 1, 2] [(0, 1), (1, 2)]) a b →
      ((a = 0 ∧ b = 1) ∨ (a = 1 ∧ b = 2)) := by
    intro a b hab
    have hw := (mem_adjOf.1 hab).1
    simp only [List.mem_cons, List.not_mem_nil, or_false, Prod.mk.injEq] at hw
    exact hw
  have hno2 : ∀ c, ¬ edgeStep (adjOf [0, 1, 2] [(0, 1), (1, 2)]) 2 c := by
    intro c hc
    rcases hedge 2 c hc with ⟨h, _⟩ | ⟨h, _⟩ <;> omega
  have hnr20 : ¬ Relation.ReflTransGen
      (edgeStep (adjOf [0, 1, 2] [(0, 1), (1, 2)])) 2 0 := by
    intro h
    rcases Relation.ReflTransGen.cases_head h with h' | ⟨c, hc, _⟩
    · omega
    · exact hno2 c hc
  have hnr21 : ¬ Relation.ReflTransGen
      (edgeStep (adjOf [0, 1, 2] [(0, 1), (1, 2)])) 2 1 := by
    intro h
    rcases Relation.ReflTransGen.cases_head h with h' | ⟨c, hc, _⟩
    · omega
    · exact hno2 c hc
  have hnr10 : ¬ Relation.ReflTransGen
      (edgeStep (adjOf [0, 1, 2] [(0, 1), (1, 2)])) 1 0 := by
    intro h
    rcases Relation.ReflTransGen.cases_head h with h' | ⟨c, hc, hcr⟩
    · omega
    · rcases hedge 1 c hc with ⟨h1, _⟩ | ⟨_, h2⟩
      · omega
      · subst h2
        exact hnr20 hcr
  intro a b hab
  rcases hedge a b hab with ⟨ha, hb⟩ | ⟨ha, hb⟩
  · subst ha; subst hb; exact hnr10
  · subst ha; subst hb; exact hnr21

/-- Witness for C1 at the chain `0 → 1 → 2`. -/
theorem topologicalSort_correct_witness :
    (topologicalSort [0, 1, 2] [(0, 1), (1, 2)]).Perm [0, 1, 2] ∧
    ∀ w ∈ [((0 : Nat), (1 : Nat)), (1, 2)], w.1 ∈ [0, 1, 2] → w.2 ∈ [0, 1, 2] →
      (topologicalSort [0, 1, 2] [(0, 1), (1, 2)]).indexOf w.1 <
        (topologicalSort [0, 1, 2] [(0, 1), (1, 2)]).indexOf w.2 :=
  topologicalSort_correct [0, 1, 2] [(0, 1), (1, 2)] (by decide) chain_acyclic

/-! ## Claim theorems for the pin, clock and wiring layers -/

/-- C5: a Clock with period 1000 and `lastToggle = 0`, updated at
`t = 0, 400, 600, 1000, 1100`, toggles exactly twice, at `t = 600` and
`t = 1100`; in general `update t` flips the state and records `t` as
`lastToggle` iff `t - lastToggle ≥ period / 2`. -/
theorem clock_half_period_toggling :
    (Clock.run ⟨false, 1000, 0⟩ [0, 400, 600, 1000, 1100]).2 = [600, 1100] ∧
    ∀ (c : Clock) (t : Int),
      ((c.update t).state = !c.state ∧ (c.update t).lastToggle = t) ↔
        c.period ≤ 2 * (t - c.lastToggle) := by
  constructor
  · decide
  · intro c t
    unfold Clock.update
    by_cases h : c.period ≤ 2 * (t - c.lastToggle)
    · simp [h]
    · simp only [h, if_false, iff_false, not_and]
      intro hstate
      exact absurd hstate (by cases c.state <;> simp)

/-- C6: `setValue v` on a pin already holding `v` changes nothing: the
network is unchanged and no propagation call reaches any downstream pin. -/
theorem setValue_change_suppression (fuel : Nat) (net : PinNet) (pid : Nat)
    (v : Bool) (p : Pin) (hfind : net.findPin pid = some p)
    (hval : p.value = v) :
    PinNet.setValue fuel net pid v = (net, []) := by
  cases fuel with
  | zero => rfl
  | succ f =>
    unfold PinNet.setValue
    rw [hfind]
    simp [hval]

/-- Witness for C6: an output pin holding `true`, set to `true` again. -/
theorem setValue_change_suppression_witness :
    PinNet.setValue 2
      ⟨[(0, ⟨PinType.output, true, [5]⟩), (1, ⟨PinType.input, true, [5]⟩)],
       [(5, 0, 1)]⟩ 0 true =
      (⟨[(0, ⟨PinType.output, true, [5]⟩), (1, ⟨PinType.input, true, [5]⟩)],
        [(5, 0, 1)]⟩, []) :=
  setValue_change_suppression 2
    ⟨[(0, ⟨PinType.output, true, [5]⟩), (1, ⟨PinType.input, true, [5]⟩)],
     [(5, 0, 1)]⟩ 0 true ⟨PinType.output, true, [5]⟩ (by decide) (by decide)

/-- C7: an input pin with zero connected wires reads `false` from
`getValue` regardless of its stored value, and disconnecting an attached
wire from an input pin resets its stored value to `false`. -/
theorem disconnected_input_reads_low :
    (∀ p : Pin, p.ptype = PinType.input → p.connectedWires = [] →
      p.getValue = false) ∧
    (∀ (p : Pin) (w : Nat), p.ptype = PinType.input → w ∈ p.connectedWires →
      (p.disconnectWire w).value = false) := by
  constructor
  · intro p h1 h2
    unfold Pin.getValue
    simp [h1, h2]
  · intro p w h1 h2
    unfold Pin.disconnectWire
    simp [h1, h2]

/-- C10: a completed wire is rejected only when a wire with the same
source pin and the same target pin already exists; a second driver from a
different output pin onto the same input pin is accepted; and
`Pin.connectWire` never attaches the same wire twice. -/
theorem wire_completion_policy :
    (∀ (pt : Nat → PinType) (c : UICircuit) (s e : Nat),
      (∃ w ∈ c.wires, w.fromPid = s ∧ w.toPid = e) →
      completeWire pt c s e = c) ∧
    (∀ (pt : Nat → PinType) (c : UICircuit) (s e : Nat),
      pt e = PinType.input → e ≠ s →
      (∀ w ∈ c.wires, ¬(w.fromPid = s ∧ w.toPid = e)) →
      (completeWire pt c s e).wires =
        c.wires ++ [⟨c.nextWireId, s, e⟩]) ∧
    (∀ (p : Pin) (w : Nat), w ∈ p.connectedWires → p.connectWire w = p) := by
  refine ⟨?_, ?_, ?_⟩
  · intro pt c s e hex
    unfold completeWire
    obtain ⟨w, hw, h1, h2⟩ := hex
    by_cases hok : pt e = PinType.input ∧ e ≠ s
    · rw [if_pos hok]
      have hfind : (c.wires.find? (fun w => w.fromPid == s && w.toPid == e)).isSome := by
        rw [List.find?_isSome]
        exact ⟨w, hw, by simp [h1, h2]⟩
      rw [if_pos hfind]
    · rw [if_neg hok]
  · intro pt c s e h1 h2 hnone
    unfold completeWire
    rw [if_pos ⟨h1, h2⟩]
    have hfind : ¬(c.wires.find? (fun w => w.fromPid == s && w.toPid == e)).isSome := by
      rw [List.find?_isSome]
      rintro ⟨w, hw, hcond⟩
      simp only [Bool.and_eq_true, beq_iff_eq] at hcond
      exact hnone w hw hcond
    rw [if_neg hfind]
  · intro p w hw
    unfold Pin.connectWire
    rw [if_pos hw]

/-- Witness for C10: a second driver onto input pin 2 is accepted while a
duplicate of the existing wire is rejected. -/
theorem wire_completion_policy_witness :
    (completeWire (fun pid => if pid = 2 then PinType.input else PinType.output)
        ⟨[⟨7, 0, 2⟩], 8⟩ 0 2 = ⟨[⟨7, 0, 2⟩], 8⟩) ∧
    ((completeWire (fun pid => if pid = 2 then PinType.input else PinType.output)
        ⟨[⟨7, 0, 2⟩], 8⟩ 1 2).wires = [⟨7, 0, 2⟩] ++ [⟨8, 1, 2⟩]) ∧
    ((⟨PinType.input, false, [7]⟩ : Pin).connectWire 7 =
      ⟨PinType.input, false, [7]⟩) :=
  ⟨wire_completion_policy.1 _ ⟨[⟨7, 0, 2⟩], 8⟩ 0 2 ⟨⟨7, 0, 2⟩, by decide, rfl, rfl⟩,
   wire_completion_policy.2.1 _ ⟨[⟨7, 0, 2⟩], 8⟩ 1 2 (by decide) (by decide)
     (by decide),
   wire_completion_policy.2.2 ⟨PinType.input, false, [7]⟩ 7 (by decide)⟩

/-! ## Component-level circuit model

Components are the standard library of the repository: the gates
AND/OR/NOT/XOR/NAND/NOR (data-driven definitions in `components/*.json`,
documented in `ADDING_COMPONENTS.md` and the README; the gate bodies are
e.g. `inputs.every(pin => pin.getValue())` for AND), the interactive
INPUT, the CLOCK, and the sinks OUTPUT and LED.  A component stores its
current input- and output-pin values; `state` is the INPUT/CLOCK boolean
(`state` of the legacy classes in `src/components/InputOutput.js`,
`state.value` of the data-driven ones).  `faulty` marks a component whose
embedded logic fragment throws when run: `GenericComponent.evaluate`
wraps the fragment in try/catch, so a faulty component's evaluation
leaves the circuit unchanged (src/circuit/GenericComponent.js). -/

inductive Kind where
  | AND
  | OR
  | NOT
  | XOR
  | NAND
  | NOR
  | INPUT
  | OUTPUT
  | CLOCK
  | LED
deriving DecidableEq, Repr

structure Comp where
  cid : Nat
  kind : Kind
  state : Bool
  faulty : Bool
  inVals : List Bool
  outVals : List Bool
deriving DecidableEq, Repr

structure CWire where
  wid : Nat
  fromC : Nat
  fromPin : Nat
  toC : Nat
  toPin : Nat
deriving DecidableEq, Repr

structure Circuit where
  comps : List Comp
  wires : List CWire
deriving DecidableEq, Repr

def Circuit.findComp (circ : Circuit) (cid : Nat) : Option Comp :=
  circ.comps.find? (fun c => c.cid == cid)

def Circuit.updateComp (circ : Circuit) (cid : Nat) (f : Comp → Comp) :
    Circuit :=
  { circ with
    comps := circ.comps.map (fun c => if c.cid = cid then f c else c) }

/-- `Pin.getValue` for input pin `j` of component `c`: `false` when no wire
ends at that pin, the stored value otherwise. -/
def Circuit.getIn (circ : Circuit) (c : Comp) (j : Nat) : Bool :=
  if circ.wires.any (fun w => w.toC == c.cid && w.toPin == j) then
    c.inVals.getD j false
  else false

/-- `Pin.setValue` on an input pin: store the value (input pins do not
forward-propagate). -/
def Circuit.setInputVal (circ : Circuit) (cid j : Nat) (v : Bool) : Circuit :=
  circ.updateComp cid (fun c => { c with inVals := c.inVals.set j v })

/-- `Pin.setValue` on output pin `i` of component `cid`: a no-op when the
pin already holds `v` (change suppression); otherwise the value is stored
and forward-propagated through every wire leaving that pin to the wire's
target input pin. -/
def Circuit.setOutputVal (circ : Circuit) (cid i : Nat) (v : Bool) : Circuit :=
  match circ.findComp cid with
  | none => circ
  | some c =>
    if c.outVals.getD i false = v then circ
    else
      ((circ.updateComp cid
          (fun c => { c with outVals := c.outVals.set i v })).wires.filter
        (fun w => w.fromC == cid && w.fromPin == i)).foldl
        (fun acc w => acc.setInputVal w.toC w.toPin v)
        (circ.updateComp cid (fun c => { c with outVals := c.outVals.set i v }))

/-- One component's `evaluate()`.  A faulty component's embedded logic
throws; the try/catch boundary in `GenericComponent.evaluate` leaves the
circuit unchanged.  Gates write the truth function of their effective
input values to output pin 0; INPUT and CLOCK write their boolean state;
OUTPUT and LED write nothing. -/
def Circuit.evalComp (circ : Circuit) (cid : Nat) : Circuit :=
  match circ.findComp cid with
  | none => circ
  | some c =>
    if c.faulty then circ
    else
      match c.kind with
      | Kind.AND =>
        circ.setOutputVal c.cid 0
          ((List.range c.inVals.length).all (fun j => circ.getIn c j))
      | Kind.OR =>
        circ.setOutputVal c.cid 0
          ((List.range c.inVals.length).any (fun j => circ.getIn c j))
      | Kind.NOT => circ.setOutputVal c.cid 0 (!circ.getIn c 0)
      | Kind.XOR => circ.setOutputVal c.cid 0 (circ.getIn c 0 != circ.getIn c 1)
      | Kind.NAND =>
        circ.setOutputVal c.cid 0
          (!(List.range c.inVals.length).all (fun j => circ.getIn c j))
      | Kind.NOR =>
        circ.setOutputVal c.cid 0
          (!(List.range c.inVals.length).any (fun j => circ.getIn c j))
      | Kind.INPUT => circ.setOutputVal c.cid 0 c.state
      | Kind.CLOCK => circ.setOutputVal c.cid 0 c.state
      | Kind.OUTPUT => circ
      | Kind.LED => circ

/-- The resolver order of a circuit, by component ids (the object graph of
the JS implementation is faithfully keyed by the distinct ids). -/
def Circuit.topoOrder (circ : Circuit) : List Nat :=
  topologicalSort (circ.comps.map Comp.cid)
    (circ.wires.map (fun w => (w.fromC, w.toC)))

/-- `Simulator.evaluate`: recompute the resolver order, then evaluate every
component once in that order. -/
def Circuit.evalPass (circ : Circuit) : Circuit :=
  circ.topoOrder.foldl Circuit.evalComp circ

/-- The pin- and state-zeroing loop of `Simulator.reset`: every pin value
of every component becomes `false`, and every INPUT and CLOCK component's
state becomes `false`. -/
def zeroComp (c : Comp) : Comp :=
  { c with
    inVals := c.inVals.map (fun _ => false),
    outVals := c.outVals.map (fun _ => false),
    state := if c.kind = Kind.INPUT ∨ c.kind = Kind.CLOCK then false else c.state }

def Circuit.zeroAll (circ : Circuit) : Circuit :=
  { circ with comps := circ.comps.map zeroComp }

/-- `Simulator.reset`: zero all pins and INPUT/CLOCK states, then perform
one `evaluate()` pass. -/
def Circuit.reset (circ : Circuit) : Circuit :=
  circ.zeroAll.evalPass

/-! ### Reset idempotence (C8)

`evaluate()` only rewrites pin values — never a component's `state`, id,
kind or the wire list — so zeroing after a pass gives the same circuit as
zeroing alone, and `reset` is idempotent. -/

lemma foldl_fix {α β γ : Type} (h : α → γ) (g : α → β → α)
    (hg : ∀ a x, h (g a x) = h a) :
    ∀ (l : List β) (a : α), h (l.foldl g a) = h a := by
  intro l
  induction l with
  | nil => intro a; rfl
  | cons x t ih => intro a; rw [List.foldl_cons, ih, hg]

lemma map_const_false_set (l : List Bool) (i : Nat) (v : Bool) :
    (l.set i v).map (fun _ => false) = l.map (fun _ => false) := by
  induction l generalizing i with
  | nil => rfl
  | cons a t ih =>
    cases i with
    | zero => rfl
    | succ n => simp [List.set, ih]

lemma zeroComp_set_inVals (c : Comp) (j : Nat) (v : Bool) :
    zeroComp { c with inVals := c.inVals.set j v } = zeroComp c := by
  unfold zeroComp
  simp [map_const_false_set]

lemma zeroComp_set_outVals (c : Comp) (i : Nat) (v : Bool) :
    zeroComp { c with outVals := c.outVals.set i v } = zeroComp c := by
  unfold zeroComp
  simp [map_const_false_set]

lemma zeroAll_updateComp (circ : Circuit) (cid : Nat) (f : Comp → Comp)
    (hf : ∀ c, zeroComp (f c) = zeroComp c) :
    (circ.updateComp cid f).zeroAll = circ.zeroAll := by
  unfold Circuit.zeroAll Circuit.updateComp
  simp only [List.map_map]
  congr 1
  apply List.map_congr_left
  intro c _
  by_cases h : c.cid = cid <;> simp [h, hf]

lemma zeroAll_setInputVal (circ : Circuit) (cid j : Nat) (v : Bool) :
    (circ.setInputVal cid j v).zeroAll = circ.zeroAll :=
  zeroAll_updateComp circ cid _ (fun c => zeroComp_set_inVals c j v)

lemma zeroAll_setOutputVal (circ : Circuit) (cid i : Nat) (v : Bool) :
    (circ.setOutputVal cid i v).zeroAll = circ.zeroAll := by
  unfold Circuit.setOutputVal
  cases hfind : circ.findComp cid with
  | none => rfl
  | some c =>
    dsimp only
    by_cases hguard : c.outVals.getD i false = v
    · rw [if_pos hguard]
    · rw [if_neg hguard]
      rw [foldl_fix Circuit.zeroAll
        (fun acc (w : CWire) => acc.setInputVal w.toC w.toPin v)
        (fun a w => zeroAll_setInputVal a w.toC w.toPin v)]
      exact zeroAll_updateComp circ cid _ (fun c => zeroComp_set_outVals c i v)

lemma zeroAll_evalComp (circ : Circuit) (cid : Nat) :
    (circ.evalComp cid).zeroAll = circ.zeroAll := by
  unfold Circuit.evalComp
  cases hfind : circ.findComp cid with
  | none => rfl
  | some c =>
    by_cases hf : c.faulty
    · simp [hf]
    · simp only [hf, if_false]
      cases c.kind <;> simp [zeroAll_setOutputVal]

lemma zeroAll_evalPass (circ : Circuit) :
    circ.evalPass.zeroAll = circ.zeroAll := by
  unfold Circuit.evalPass
  exact foldl_fix Circuit.zeroAll _ zeroAll_evalComp _ _

lemma zeroComp_idem (c : Comp) : zeroComp (zeroComp c) = zeroComp c := by
  unfold zeroComp
  by_cases h : c.kind = Kind.INPUT ∨ c.kind = Kind.CLOCK <;>
    simp [h, List.map_map]

lemma zeroAll_idem (circ : Circuit) : circ.zeroAll.zeroAll = circ.zeroAll := by
  unfold Circuit.zeroAll
  simp only [List.map_map]
  congr 1
  apply List.map_congr_left
  intro c _
  exact zeroComp_idem c

/-- C8: `Simulator.reset` zeroes every pin value of every component and
every INPUT/CLOCK component's boolean state, then performs one
`evaluate()` pass; and `reset` is idempotent. -/
theorem reset_zeroes_and_idempotent (circ : Circuit) :
    (∀ c ∈ circ.zeroAll.comps,
      (∀ v ∈ c.inVals, v = false) ∧ (∀ v ∈ c.outVals, v = false) ∧
      ((c.kind = Kind.INPUT ∨ c.kind = Kind.CLOCK) → c.state = false)) ∧
    circ.reset = circ.zeroAll.evalPass ∧
    circ.reset.reset = circ.reset := by
  refine ⟨?_, rfl, ?_⟩
  · intro c hc
    unfold Circuit.zeroAll at hc
    rw [List.mem_map] at hc
    obtain ⟨c0, _, rfl⟩ := hc
    unfold zeroComp
    refine ⟨?_, ?_, ?_⟩
    · intro v hv
      rw [List.mem_map] at hv
      obtain ⟨_, _, rfl⟩ := hv
      rfl
    · intro v hv
      rw [List.mem_map] at hv
      obtain ⟨_, _, rfl⟩ := hv
      rfl
    · intro hk
      dsimp only at hk ⊢
      rw [if_pos hk]
  · show circ.reset.zeroAll.evalPass = circ.reset
    rw [show circ.reset = circ.zeroAll.evalPass from rfl,
      zeroAll_evalPass, zeroAll_idem]

/-- Witness for C8 at a one-gate circuit: an INPUT driving a NOT gate. -/
theorem reset_zeroes_and_idempotent_witness :
    (∀ c ∈ (Circuit.zeroAll
        ⟨[⟨0, Kind.INPUT, true, false, [], [true]⟩,
          ⟨1, Kind.NOT, false, false, [true], [false]⟩],
         [⟨0, 0, 0, 1, 0⟩]⟩).comps,
      (∀ v ∈ c.inVals, v = false) ∧ (∀ v ∈ c.outVals, v = false) ∧
      ((c.kind = Kind.INPUT ∨ c.kind = Kind.CLOCK) → c.state = false)) ∧
    Circuit.reset
        ⟨[⟨0, Kind.INPUT, true, false, [], [true]⟩,
          ⟨1, Kind.NOT, false, false, [true], [false]⟩],
         [⟨0, 0, 0, 1, 0⟩]⟩ =
      (Circuit.zeroAll
        ⟨[⟨0, Kind.INPUT, true, false, [], [true]⟩,
          ⟨1, Kind.NOT, false, false, [true], [false]⟩],
         [⟨0, 0, 0, 1, 0⟩]⟩).evalPass ∧
    (Circuit.reset
        ⟨[⟨0, Kind.INPUT, true, false, [], [true]⟩,
          ⟨1, Kind.NOT, false, false, [true], [false]⟩],
         [⟨0, 0, 0, 1, 0⟩]⟩).reset =
      Circuit.reset
        ⟨[⟨0, Kind.INPUT, true, false, [], [true]⟩,
          ⟨1, Kind.NOT, false, false, [true], [false]⟩],
         [⟨0, 0, 0, 1, 0⟩]⟩ :=
  reset_zeroes_and_idempotent
    ⟨[⟨0, Kind.INPUT, true, false, [], [true]⟩,
      ⟨1, Kind.NOT, false, false, [true], [false]⟩],
     [⟨0, 0, 0, 1, 0⟩]⟩

/-! ### Fault containment (C9)

`GenericComponent.evaluate`/`update`/`onClick` wrap the embedded logic
fragment in try/catch, so a throwing fragment leaves that component's
output pins (and everything else) untouched while the pass in
`Simulator.evaluate` continues over the remaining components.  The frame
of a component — its id, kind, state, fault flag and output-pin values —
can only be changed by that component's own successful evaluation. -/

def Comp.frame (c : Comp) : Nat × Kind × Bool × Bool × List Bool :=
  (c.cid, c.kind, c.state, c.faulty, c.outVals)

lemma findComp_updateComp (circ : Circuit) (k e : Nat) (f : Comp → Comp)
    (hf : ∀ c, (f c).cid = c.cid) :
    (circ.updateComp k f).findComp e =
      ((circ.findComp e).map (fun c => if c.cid = k then f c else c)) := by
  unfold Circuit.findComp Circuit.updateComp
  rw [List.find?_map]
  have hp : ((fun c : Comp => c.cid == e) ∘ fun c => if c.cid = k then f c else c) =
      (fun c : Comp => c.cid == e) := by
    funext c
    by_cases h : c.cid = k <;> simp [h, hf]
  rw [hp]

lemma frame_setInputVal (circ : Circuit) (cid j : Nat) (v : Bool) (e : Nat) :
    ((circ.setInputVal cid j v).findComp e).map Comp.frame =
      (circ.findComp e).map Comp.frame := by
  unfold Circuit.setInputVal
  rw [findComp_updateComp circ cid e
    (fun c => { c with inVals := c.inVals.set j v }) (fun c => rfl)]
  cases circ.findComp e with
  | none => rfl
  | some c =>
    by_cases h : c.cid = cid
    · simp [h, Comp.frame]
    · simp [h]

lemma findComp_cid {circ : Circuit} {e : Nat} {c : Comp}
    (h : circ.findComp e = some c) : c.cid = e := by
  unfold Circuit.findComp at h
  have := List.find?_some h
  simpa using this

lemma frame_setOutputVal (circ : Circuit) (k i : Nat) (v : Bool) (e : Nat)
    (hne : e ≠ k) :
    ((circ.setOutputVal k i v).findComp e).map Comp.frame =
      (circ.findComp e).map Comp.frame := by
  unfold Circuit.setOutputVal
  cases hfind : circ.findComp k with
  | none => rfl
  | some c =>
    dsimp only
    by_cases hguard : c.outVals.getD i false = v
    · rw [if_pos hguard]
    · rw [if_neg hguard]
      rw [foldl_fix (fun circ' : Circuit => (circ'.findComp e).map Comp.frame)
        (fun acc (w : CWire) => acc.setInputVal w.toC w.toPin v)
        (fun a w => frame_setInputVal a w.toC w.toPin v e)]
      rw [findComp_updateComp circ k e
        (fun c => { c with outVals := c.outVals.set i v }) (fun c => rfl)]
      cases hfe : circ.findComp e with
      | none => rfl
      | some ce =>
        have : ce.cid = e := findComp_cid hfe
        simp [this, hne]

lemma frame_evalComp (circ : Circuit) (k e : Nat)
    (h : k ≠ e ∨ ∃ ce, circ.findComp e = some ce ∧ ce.faulty = true) :
    ((circ.evalComp k).findComp e).map Comp.frame =
      (circ.findComp e).map Comp.frame := by
  unfold Circuit.evalComp
  cases hfind : circ.findComp k with
  | none => rfl
  | some c =>
    dsimp only
    by_cases hf : c.faulty
    · rw [if_pos hf]
    · rw [if_neg hf]
      have hne : e ≠ k := by
        rcases h with h | ⟨ce, hce, hcf⟩
        · exact fun he => h he.symm
        · intro he
          rw [he, hfind] at hce
          cases hce
          exact hf hcf
      have hck : c.cid = k := findComp_cid hfind
      cases c.kind <;>
        first
          | rfl
          | (rw [hck]; exact frame_setOutputVal circ k 0 _ e hne)

lemma frame_evalFold (order : List Nat) (circ : Circuit) (e : Nat)
    (c : Comp) (hfind : circ.findComp e = some c) (hf : c.faulty = true) :
    ((order.foldl Circuit.evalComp circ).findComp e).map Comp.frame =
      some c.frame := by
  induction order generalizing circ c with
  | nil => simp [hfind]
  | cons k rest ih =>
    rw [List.foldl_cons]
    have hstep := frame_evalComp circ k e (Or.inr ⟨c, hfind, hf⟩)
    rw [hfind] at hstep
    cases hfe : (circ.evalComp k).findComp e with
    | none => rw [hfe] at hstep; simp at hstep
    | some c' =>
      rw [hfe] at hstep
      have hfr : c'.frame = c.frame := by simpa using hstep
      have hcf' : c'.faulty = true := by
        have h2 : c'.frame.2.2.2.1 = c.frame.2.2.2.1 := by rw [hfr]
        simp only [Comp.frame] at h2
        rw [h2, hf]
      rw [ih (circ.evalComp k) c' hfe hcf', hfr]

/-- C9: when a component's embedded logic throws, the fault is contained
at that component's boundary: after a full `evaluate()` pass its output
pins, state and kind are unchanged, and the pass still covers every
component of the circuit exactly once (the resolver order is a permutation
of the component list). -/
theorem fault_containment (circ : Circuit) (cid : Nat) (c : Comp)
    (hnd : (circ.comps.map Comp.cid).Nodup)
    (hfind : circ.findComp cid = some c) (hf : c.faulty = true) :
    (∃ c', circ.evalPass.findComp cid = some c' ∧
      c'.outVals = c.outVals ∧ c'.state = c.state ∧ c'.kind = c.kind) ∧
    circ.topoOrder.Perm (circ.comps.map Comp.cid) := by
  constructor
  · have hframe := frame_evalFold circ.topoOrder circ cid c hfind hf
    unfold Circuit.evalPass
    cases hfe : (circ.topoOrder.foldl Circuit.evalComp circ).findComp cid with
    | none => rw [hfe] at hframe; simp at hframe
    | some c' =>
      rw [hfe] at hframe
      have hfr : c'.frame = c.frame := by simpa using hframe
      refine ⟨c', rfl, ?_, ?_, ?_⟩
      · have h2 : c'.frame.2.2.2.2 = c.frame.2.2.2.2 := by rw [hfr]
        simpa [Comp.frame] using h2
      · have h2 : c'.frame.2.2.1 = c.frame.2.2.1 := by rw [hfr]
        simpa [Comp.frame] using h2
      · have h2 : c'.frame.2.1 = c.frame.2.1 := by rw [hfr]
        simpa [Comp.frame] using h2
  · exact (topologicalSort_main (circ.comps.map Comp.cid)
      (circ.wires.map (fun w => (w.fromC, w.toC))) hnd).1

/-- Witness for C9: an INPUT feeding a faulty NOT gate feeding an LED,
next to a healthy `INPUT → NOT` pair. -/
theorem fault_containment_witness :
    (∃ c', (Circuit.evalPass
        ⟨[⟨0, Kind.INPUT, true, false, [], [false]⟩,
          ⟨1, Kind.NOT, false, true, [false], [true]⟩,
          ⟨2, Kind.LED, false, false, [true], []⟩],
         [⟨0, 0, 0, 1, 0⟩, ⟨1, 1, 0, 2, 0⟩]⟩).findComp 1 = some c' ∧
      c'.outVals = (⟨1, Kind.NOT, false, true, [false], [true]⟩ : Comp).outVals ∧
      c'.state = (⟨1, Kind.NOT, false, true, [false], [true]⟩ : Comp).state ∧
      c'.kind = (⟨1, Kind.NOT, false, true, [false], [true]⟩ : Comp).kind) ∧
    (Circuit.topoOrder
        ⟨[⟨0, Kind.INPUT, true, false, [], [false]⟩,
          ⟨1, Kind.NOT, false, true, [false], [true]⟩,
          ⟨2, Kind.LED, false, false, [true], []⟩],
         [⟨0, 0, 0, 1, 0⟩, ⟨1, 1, 0, 2, 0⟩]⟩).Perm
      ((⟨[⟨0, Kind.INPUT, true, false, [], [false]⟩,
          ⟨1, Kind.NOT, false, true, [false], [true]⟩,
          ⟨2, Kind.LED, false, false, [true], []⟩],
         [⟨0, 0, 0, 1, 0⟩, ⟨1, 1, 0, 2, 0⟩]⟩ : Circuit).comps.map Comp.cid) :=
  fault_containment
    ⟨[⟨0, Kind.INPUT, true, false, [], [false]⟩,
      ⟨1, Kind.NOT, false, true, [false], [true]⟩,
      ⟨2, Kind.LED, false, false, [true], []⟩],
     [⟨0, 0, 0, 1, 0⟩, ⟨1, 1, 0, 2, 0⟩]⟩ 1
    ⟨1, Kind.NOT, false, true, [false], [true]⟩ (by decide) (by decide) rfl

/-! ## Subcircuit evaluation bridge (src/circuit/Subcircuit.js, `evaluate`)

Step 1 writes each boundary input pin's value into the corresponding
internal INPUT component's state (`input.state.value = this.inputPins[i]
.getValue()`; the data-driven INPUT stores its boolean in `state.value`,
modelled as `Comp.state`) and immediately evaluates that INPUT component.
Step 2 runs the resolver order over the nested circuit, evaluating every
component except the INPUT components already handled.  Step 3 reads each
internal OUTPUT component's `getValue()` (its input pin 0) and writes it
to the corresponding boundary output pin; the list of those values is
returned here, the Nth OUTPUT component mapping to boundary output pin N. -/

def bridgeInputs (bin : List Bool) (circ : Circuit) : Circuit :=
  ((circ.comps.filter (fun c => c.kind == Kind.INPUT)).enum).foldl
    (fun acc p =>
      match bin.get? p.1 with
      | none => acc
      | some v =>
        (acc.updateComp p.2.cid (fun c => { c with state := v })).evalComp p.2.cid)
    circ

def subEvalPass (circ : Circuit) : Circuit :=
  circ.topoOrder.foldl
    (fun acc cid =>
      match acc.findComp cid with
      | none => acc
      | some c => if c.kind == Kind.INPUT then acc else acc.evalComp cid)
    circ

def subcircuitEval (bin : List Bool) (circ : Circuit) : Circuit × List Bool :=
  let c2 := subEvalPass (bridgeInputs bin circ)
  (c2, (c2.comps.filter (fun c => c.kind == Kind.OUTPUT)).map
    (fun c => c2.getIn c 0))

/-- A subcircuit computing AND of its two INPUT components, with one
OUTPUT component: `INPUT(0), INPUT(1) → AND(2) → OUTPUT(3)`. -/
def andSub : Circuit :=
  ⟨[⟨0, Kind.INPUT, false, false, [], [false]⟩,
    ⟨1, Kind.INPUT, false, false, [], [false]⟩,
    ⟨2, Kind.AND, false, false, [false, false], [false]⟩,
    ⟨3, Kind.OUTPUT, false, false, [false], []⟩],
   [⟨0, 0, 0, 2, 0⟩, ⟨1, 1, 0, 2, 1⟩, ⟨2, 2, 0, 3, 0⟩]⟩

/-- C2: evaluating a SubcircuitComponent over the AND subcircuit yields
`a && b` on boundary output pin 0 for boundary inputs `(a, b)` — true for
true/true and false when either input is false — and the bridge writes
each boundary input value into the corresponding internal INPUT
component's state and immediately evaluates that INPUT (its output pin
already holds the boundary value before the pass). -/
theorem subcircuit_and_bridge (a b : Bool) :
    (subcircuitEval [a, b] andSub).2 = [a && b] ∧
    ((bridgeInputs [a, b] andSub).findComp 0).map
      (fun c => (c.state, c.outVals)) = some (a, [a]) ∧
    ((bridgeInputs [a, b] andSub).findComp 1).map
      (fun c => (c.state, c.outVals)) = some (b, [b]) := by
  cases a <;> cases b <;> decide

/-! ## Serialization round trip (src/core/Circuit.js, `serialize` /
`deserialize`; src/core/Wire.js, `Wire.serialize`;
src/circuit/Subcircuit.js, `SubcircuitComponent.serialize`;
src/app/App.js, `createComponent`)

A live component carries id, type tag, position, label, optional `state`
object, the `circuitName` of a subcircuit instance, and its pin counts.
JS objects (component `state`) are modelled as insertion-ordered field
lists; `Object.assign(target, source)` keeps the target's field order,
overwrites values present in the source and appends source-only fields.
The component registry is modelled from the repository's data-driven
component definitions (`components/*.json`; the files themselves are not
part of the source tree — their shapes are the ones documented in
`ADDING_COMPONENTS.md` and the README). -/

inductive SVal where
  | b (v : Bool)
  | i (n : Int)
deriving DecidableEq, Repr

abbrev SState := List (String × SVal)

structure RegDef where
  nin : Nat
  nout : Nat
  dState : SState
deriving DecidableEq, Repr

/-- Modelled from the spec: the component registry's pin counts and
default `state` objects for the standard data-driven definitions
(`components/and.json` … `components/led.json` are absent from the source
tree; shapes follow `ADDING_COMPONENTS.md` / README). -/
def registryDefs : List (String × RegDef) :=
  [("AND", ⟨2, 1, []⟩), ("OR", ⟨2, 1, []⟩), ("NOT", ⟨1, 1, []⟩),
   ("XOR", ⟨2, 1, []⟩), ("NAND", ⟨2, 1, []⟩), ("NOR", ⟨2, 1, []⟩),
   ("INPUT", ⟨0, 1, [("value", SVal.b false)]⟩),
   ("OUTPUT", ⟨1, 0, []⟩),
   ("CLOCK", ⟨0, 1,
     [("value", SVal.b false), ("period", SVal.i 1000),
      ("lastToggle", SVal.i 0)]⟩),
   ("LED", ⟨1, 0, []⟩)]

def registry (t : String) : Option RegDef :=
  (registryDefs.find? (fun p => p.1 == t)).map Prod.snd

def regNin (t : String) : Nat :=
  match registry t with
  | some rd => rd.nin
  | none => 0

def regNout (t : String) : Nat :=
  match registry t with
  | some rd => rd.nout
  | none => 0

def regDefault (t : String) : SState :=
  match registry t with
  | some rd => rd.dState
  | none => []

structure DComp where
  id : Nat
  type : String
  x : Int
  y : Int
  label : String
  state : Option SState
  circuitName : Option String
  nin : Nat
  nout : Nat
deriving DecidableEq, Repr

structure DWire where
  id : Nat
  fromC : Nat
  fromPin : Nat
  toC : Nat
  toPin : Nat
deriving DecidableEq, Repr

structure DCircuit where
  name : String
  isSubcircuit : Bool
  comps : List DComp
  wires : List DWire
deriving DecidableEq, Repr

structure SerComp where
  id : Nat
  type : String
  x : Int
  y : Int
  label : String
  state : Option SState
  circuitName : Option String
deriving DecidableEq, Repr

structure SerWire where
  id : Nat
  fromComponentId : Nat
  fromPinIndex : Nat
  toComponentId : Nat
  toPinIndex : Nat
deriving DecidableEq, Repr

structure SerCircuit where
  name : String
  isSubcircuit : Bool
  components : List SerComp
  wires : List SerWire
deriving DecidableEq, Repr

/-- `Component.serialize` (id, type, x, y, label, state when present) plus
`SubcircuitComponent.serialize`'s `circuitName`. -/
def serializeComp (c : DComp) : SerComp :=
  ⟨c.id, c.type, c.x, c.y, c.label, c.state, c.circuitName⟩

/-- `Wire.serialize`: id plus `(componentId, pinIndex)` for each side (the
constant `pinType` strings carry no information and are omitted). -/
def serializeWire (w : DWire) : SerWire :=
  ⟨w.id, w.fromC, w.fromPin, w.toC, w.toPin⟩

def serializeCircuit (d : DCircuit) : SerCircuit :=
  ⟨d.name, d.isSubcircuit, d.comps.map serializeComp,
   d.wires.map serializeWire⟩

/-- `Object.assign(dflt, saved)`: default fields in place (overwritten by
the saved value when present), saved-only fields appended. -/
def mergeState (d s : SState) : SState :=
  (d.map (fun p =>
    (p.1, ((s.find? (fun q => q.1 == p.1)).map Prod.snd).getD p.2))) ++
    s.filter (fun q => (d.find? (fun p => p.1 == q.1)).isNone)

/-- `App.createComponent`, the factory handed to `Circuit.deserialize`:
a `SUBCIRCUIT_`-prefixed type produces a `SubcircuitComponent` — whose own
type tag is the constructor's `'SUBCIRCUIT'` and whose pin counts come
from the referenced circuit's INPUT/OUTPUT component counts (2-in/1-out
fallback when the reference is missing) — and any other type goes through
the registry.  `circuits` maps each known circuit name to its
(INPUT count, OUTPUT count). -/
def createComponent (circuits : List (String × (Nat × Nat)))
    (t : String) (x y : Int) (circuitName : Option String) : Option DComp :=
  if "SUBCIRCUIT_".data.isPrefixOf t.data then
    let name := circuitName.getD (String.mk (t.data.drop 11))
    let pins := ((circuits.find? (fun p => p.1 == name)).map Prod.snd).getD (2, 1)
    some ⟨0, "SUBCIRCUIT", x, y, "", none, some name, pins.1, pins.2⟩
  else
    match registry t with
    | some rd => some ⟨0, t, x, y, "", some rd.dState, none, rd.nin, rd.nout⟩
    | none => none

/-- The per-component restore step of `Circuit.deserialize`: overwrite the
id and label and merge the saved state onto the freshly constructed
default (`Object.assign` when the default is an object, plain replacement
otherwise). -/
def restoreComp (cd : SerComp) (c0 : DComp) : DComp :=
  { c0 with
    id := cd.id,
    label := cd.label,
    state :=
      match cd.state with
      | none => c0.state
      | some s =>
        match c0.state with
        | some d => some (mergeState d s)
        | none => some s }

/-- The component loop of `Circuit.deserialize`: components whose type the
factory cannot resolve are skipped (the `SUBCIRCUIT_` fallback branch of
the source can never fire with this factory, which already handles that
prefix, so it contributes nothing). -/
def deserComps (circuits : List (String × (Nat × Nat)))
    (l : List SerComp) : List DComp :=
  l.filterMap (fun cd =>
    match createComponent circuits cd.type cd.x cd.y cd.circuitName with
    | some c0 => some (restoreComp cd c0)
    | none => none)

/-- `componentMap.get`: the map is keyed by id with later `set` calls
overwriting earlier ones, so lookup finds the last component added with
that id. -/
def deserLookup (comps : List DComp) (i : Nat) : Option DComp :=
  comps.reverse.find? (fun c => c.id == i)

/-- The wire loop of `Circuit.deserialize`: a wire is reconstructed only
when both endpoint components were found and both pin indexes are in
range (`outputPins[idx]` / `inputPins[idx]` exist). -/
def deserWires (comps : List DComp) (l : List SerWire) : List DWire :=
  l.filterMap (fun wd =>
    match deserLookup comps wd.fromComponentId,
          deserLookup comps wd.toComponentId with
    | some fc, some tc =>
      if wd.fromPinIndex < fc.nout ∧ wd.toPinIndex < tc.nin then
        some ⟨wd.id, fc.id, wd.fromPinIndex, tc.id, wd.toPinIndex⟩
      else none
    | _, _ => none)

def deserializeCircuit (circuits : List (String × (Nat × Nat)))
    (data : SerCircuit) : DCircuit :=
  ⟨data.name, data.isSubcircuit, deserComps circuits data.components,
   deserWires (deserComps circuits data.components) data.wires⟩

/-! ### Round-trip lemmas -/

lemma filterMap_eq_self {α : Type} (f : α → Option α) (l : List α)
    (h : ∀ a ∈ l, f a = some a) : l.filterMap f = l := by
  induction l with
  | nil => rfl
  | cons a t ih =>
    rw [List.filterMap_cons, h a (by simp)]
    rw [ih (fun b hb => h b (by simp [hb]))]

lemma registry_mem (t : String) (h : (registry t).isSome = true) :
    t ∈ ["AND", "OR", "NOT", "XOR", "NAND", "NOR", "INPUT", "OUTPUT",
      "CLOCK", "LED"] := by
  unfold registry at h
  have h2 : (registryDefs.find? (fun p => p.1 == t)).isSome = true := by
    cases hf : registryDefs.find? (fun p => p.1 == t) with
    | none => rw [hf] at h; simp at h
    | some p => simp
  rw [List.find?_isSome] at h2
  obtain ⟨p, hp, hpe⟩ := h2
  rw [beq_iff_eq] at hpe
  subst hpe
  fin_cases hp <;> decide

lemma registry_not_sub (t : String) (h : (registry t).isSome = true) :
    ("SUBCIRCUIT_".data.isPrefixOf t.data) = false := by
  have := registry_mem t h
  fin_cases this <;> decide

lemma merge_map_part :
    ∀ (d s : SState), s.map Prod.fst = d.map Prod.fst →
      (d.map Prod.fst).Nodup →
      d.map (fun p =>
        (p.1, ((s.find? (fun q => q.1 == p.1)).map Prod.snd).getD p.2)) = s := by
  intro d
  induction d with
  | nil =>
    intro s hk _
    have : s = [] := List.map_eq_nil_iff.1 hk
    subst this
    rfl
  | cons p d' ih =>
    intro s hk hnd
    cases s with
    | nil => simp at hk
    | cons q s' =>
      rw [List.map_cons, List.map_cons] at hk
      injection hk with hk1 hk2
      rw [List.map_cons] at hnd
      obtain ⟨hp1, hndt⟩ := List.nodup_cons.1 hnd
      rw [List.map_cons]
      congr 1
      · have hfind : (q :: s').find? (fun r => r.1 == p.1) = some q :=
          List.find?_cons_of_pos _ (by simp [hk1])
        rw [hfind]
        simp only [Option.map_some', Option.getD_some]
        rw [Prod.ext_iff]
        exact ⟨hk1.symm, rfl⟩
      · have hpt : ∀ r ∈ d',
            ((q :: s').find? (fun q' => q'.1 == r.1)) =
              s'.find? (fun q' => q'.1 == r.1) := by
          intro r hr
          apply List.find?_cons_of_neg
          simp only [beq_iff_eq, hk1]
          intro he
          apply hp1
          rw [he]
          exact List.mem_map_of_mem _ hr
        calc d'.map (fun r =>
              (r.1, (((q :: s').find? (fun q' => q'.1 == r.1)).map Prod.snd).getD r.2))
            = d'.map (fun r =>
              (r.1, ((s'.find? (fun q' => q'.1 == r.1)).map Prod.snd).getD r.2)) := by
              apply List.map_congr_left
              intro r hr
              rw [hpt r hr]
          _ = s' := ih s' hk2 hndt

lemma merge_filter_part (d s : SState)
    (hk : s.map Prod.fst = d.map Prod.fst) :
    s.filter (fun q => (d.find? (fun p => p.1 == q.1)).isNone) = [] := by
  rw [List.filter_eq_nil_iff]
  intro q hq
  have hmem : q.1 ∈ d.map Prod.fst := by
    rw [← hk]
    exact List.mem_map_of_mem _ hq
  obtain ⟨p, hp, hpe⟩ := List.mem_map.1 hmem
  have hsome : (d.find? (fun p' => p'.1 == q.1)).isSome = true := by
    rw [List.find?_isSome]
    exact ⟨p, hp, by simp [hpe]⟩
  cases hf : d.find? (fun p' => p'.1 == q.1) with
  | none => rw [hf] at hsome; simp at hsome
  | some p' => simp [hf]

lemma mergeState_id (d s : SState) (hk : s.map Prod.fst = d.map Prod.fst)
    (hnd : (d.map Prod.fst).Nodup) : mergeState d s = s := by
  unfold mergeState
  rw [merge_filter_part d s hk, List.append_nil, merge_map_part d s hk hnd]

lemma find?_key_unique {α : Type} (key : α → Nat) :
    ∀ (l : List α), (l.map key).Nodup → ∀ c ∈ l,
      l.find? (fun a => key a == key c) = some c := by
  intro l
  induction l with
  | nil => intro _ c hc; simp at hc
  | cons a t ih =>
    intro hnd c hc
    rw [List.map_cons] at hnd
    obtain ⟨hna, hndt⟩ := List.nodup_cons.1 hnd
    rcases List.mem_cons.1 hc with rfl | hct
    · exact List.find?_cons_of_pos _ (by simp)
    · rw [List.find?_cons_of_neg]
      · exact ih hndt c hct
      · simp only [beq_iff_eq]
        intro he
        apply hna
        rw [he]
        exact List.mem_map_of_mem _ hct

lemma deserLookup_eq (comps : List DComp)
    (hnd : (comps.map DComp.id).Nodup) (c : DComp) (hc : c ∈ comps) :
    deserLookup comps c.id = some c := by
  unfold deserLookup
  have h1 : (comps.reverse.map DComp.id).Nodup := by
    rw [List.map_reverse]
    exact List.nodup_reverse.2 hnd
  exact find?_key_unique DComp.id comps.reverse h1 c (List.mem_reverse.2 hc)

/-- The per-component side conditions of the amended round-trip claim:
the type resolves through the registry (so the component is not a
subcircuit instance), pin counts match the registry definition, and the
saved state object has exactly the definition's default fields. -/
def compRoundtripOk (c : DComp) : Prop :=
  (registry c.type).isSome = true ∧ c.circuitName = none ∧
  c.nin = regNin c.type ∧ c.nout = regNout c.type ∧
  c.state.isSome = true ∧
  (c.state.getD []).map Prod.fst = (regDefault c.type).map Prod.fst ∧
  ((regDefault c.type).map Prod.fst).Nodup

instance (c : DComp) : Decidable (compRoundtripOk c) := by
  unfold compRoundtripOk
  infer_instance

lemma deserComps_id (circuits : List (String × (Nat × Nat)))
    (l : List DComp) (hcomps : ∀ c ∈ l, compRoundtripOk c) :
    deserComps circuits (l.map serializeComp) = l := by
  unfold deserComps
  rw [List.filterMap_map]
  apply filterMap_eq_self
  intro c hc
  obtain ⟨hreg, hcn, hnin, hnout, hst, hkeys, hknd⟩ := hcomps c hc
  obtain ⟨s, hs⟩ := Option.isSome_iff_exists.1 hst
  obtain ⟨rd, hrd⟩ := Option.isSome_iff_exists.1 hreg
  have hpre := registry_not_sub c.type hreg
  have hdef : regDefault c.type = rd.dState := by
    unfold regDefault
    rw [hrd]
  rw [hs] at hkeys
  rw [hdef] at hkeys hknd
  simp only [Option.getD_some] at hkeys
  have hnin' : c.nin = rd.nin := by
    rw [hnin]
    unfold regNin
    rw [hrd]
  have hnout' : c.nout = rd.nout := by
    rw [hnout]
    unfold regNout
    rw [hrd]
  simp only [Function.comp_apply, serializeComp]
  unfold createComponent
  rw [hpre]
  simp only [Bool.false_eq_true, if_false, hrd]
  unfold restoreComp
  rw [hs]
  simp only
  rw [mergeState_id rd.dState s hkeys hknd]
  rw [← hnin', ← hnout', ← hs, ← hcn]

/-- The wire side conditions of the amended round-trip claim: both
endpoints exist and the pin indexes are within the endpoint components'
pin counts. -/
def wireRoundtripOk (comps : List DComp) (w : DWire) : Prop :=
  ∃ fc ∈ comps, ∃ tc ∈ comps,
    w.fromC = fc.id ∧ w.toC = tc.id ∧ w.fromPin < fc.nout ∧ w.toPin < tc.nin

instance (comps : List DComp) (w : DWire) :
    Decidable (wireRoundtripOk comps w) := by
  unfold wireRoundtripOk
  infer_instance

lemma deserWires_id (comps : List DComp) (l : List DWire)
    (hids : (comps.map DComp.id).Nodup)
    (hwires : ∀ w ∈ l, wireRoundtripOk comps w) :
    deserWires comps (l.map serializeWire) = l := by
  unfold deserWires
  rw [List.filterMap_map]
  apply filterMap_eq_self
  intro w hw
  obtain ⟨fc, hfc, tc, htc, hwf, hwt, hpf, hpt⟩ := hwires w hw
  show (match deserLookup comps (serializeWire w).fromComponentId,
        deserLookup comps (serializeWire w).toComponentId with
    | some fc, some tc =>
      if (serializeWire w).fromPinIndex < fc.nout ∧
          (serializeWire w).toPinIndex < tc.nin then
        some ⟨(serializeWire w).id, fc.id, (serializeWire w).fromPinIndex,
          tc.id, (serializeWire w).toPinIndex⟩
      else none
    | _, _ => none) = some w
  have h1 : (serializeWire w).fromComponentId = fc.id := hwf
  have h2 : (serializeWire w).toComponentId = tc.id := hwt
  rw [h1, h2, deserLookup_eq comps hids fc hfc, deserLookup_eq comps hids tc htc]
  show (if w.fromPin < fc.nout ∧ w.toPin < tc.nin then
      some ⟨w.id, fc.id, w.fromPin, tc.id, w.toPin⟩ else none) = some w
  rw [if_pos ⟨hpf, hpt⟩, ← hwf, ← hwt]

lemma deserialize_serialize (circuits : List (String × (Nat × Nat)))
    (d : DCircuit) (hids : (d.comps.map DComp.id).Nodup)
    (hcomps : ∀ c ∈ d.comps, compRoundtripOk c)
    (hwires : ∀ w ∈ d.wires, wireRoundtripOk d.comps w) :
    deserializeCircuit circuits (serializeCircuit d) = d := by
  unfold deserializeCircuit serializeCircuit
  dsimp only
  rw [deserComps_id circuits d.comps hcomps,
    deserWires_id d.comps d.wires hids hwires]

/-- C3 counterexample: a circuit holding one subcircuit instance.  Its
type tag serializes as `'SUBCIRCUIT'`, which the factory cannot resolve
(the registry has no such id and the `SUBCIRCUIT_` branch does not match),
so deserialization drops the component and the re-serialized form differs
from the first. -/
def subInstCircuit : DCircuit :=
  ⟨"main", false, [⟨5, "SUBCIRCUIT", 0, 0, "", none, some "sub", 2, 1⟩], []⟩

theorem roundtrip_drops_subcircuit_instance :
    serializeCircuit (deserializeCircuit [("sub", (2, 1))]
        (serializeCircuit subInstCircuit)) ≠
      serializeCircuit subInstCircuit := by
  decide

/-- C3 (amended): serialize–deserialize–serialize is the identity on the
first serialized form for every circuit whose components all resolve
through the component factory's registry (no subcircuit instances), have
their registry pin counts and default-shaped state objects, with distinct
ids and in-range wire endpoints. -/
theorem serialization_roundtrip (circuits : List (String × (Nat × Nat)))
    (d : DCircuit) (hids : (d.comps.map DComp.id).Nodup)
    (hcomps : ∀ c ∈ d.comps, compRoundtripOk c)
    (hwires : ∀ w ∈ d.wires, wireRoundtripOk d.comps w) :
    serializeCircuit (deserializeCircuit circuits (serializeCircuit d)) =
      serializeCircuit d := by
  rw [deserialize_serialize circuits d hids hcomps hwires]

/-- Witness for C3 at a two-component circuit (INPUT driving an AND). -/
theorem serialization_roundtrip_witness :
    serializeCircuit (deserializeCircuit []
        (serializeCircuit
          ⟨"main", false,
           [⟨0, "INPUT", 0, 0, "", some [("value", SVal.b true)], none, 0, 1⟩,
            ⟨1, "AND", 10, 0, "g", some [], none, 2, 1⟩],
           [⟨0, 0, 0, 1, 0⟩]⟩)) =
      serializeCircuit
        ⟨"main", false,
         [⟨0, "INPUT", 0, 0, "", some [("value", SVal.b true)], none, 0, 1⟩,
          ⟨1, "AND", 10, 0, "g", some [], none, 2, 1⟩],
         [⟨0, 0, 0, 1, 0⟩]⟩ :=
  serialization_roundtrip []
    ⟨"main", false,
     [⟨0, "INPUT", 0, 0, "", some [("value", SVal.b true)], none, 0, 1⟩,
      ⟨1, "AND", 10, 0, "g", some [], none, 2, 1⟩],
     [⟨0, 0, 0, 1, 0⟩]⟩ (by decide) (by decide) (by decide)

/-! ## Subcircuit deletion guard (src/app/App.js, `deleteSubcircuit`;
src/circuit/Subcircuit.js, constructor)

`deleteSubcircuit(name)` refuses when the name is unknown or not a
subcircuit, scans every other circuit's component type tags for
`'SUBCIRCUIT_' + name` and refuses when one matches; otherwise (after
user confirmation) it removes the definition from the circuits map.  A
`SubcircuitComponent` instance, however, is constructed with
`super('SUBCIRCUIT', …)`: its type tag is the bare `'SUBCIRCUIT'`. -/

/-- The type tag of every `SubcircuitComponent` instance (from the
constructor's `super('SUBCIRCUIT', x, y, 80, 60)`). -/
def subcircuitInstanceType : String := "SUBCIRCUIT"

structure AppCircuit where
  isSubcircuit : Bool
  compTypes : List String
deriving DecidableEq, Repr

/-- The reference scan of `App.deleteSubcircuit`: does any other circuit
contain a component whose type tag is `'SUBCIRCUIT_' + name`? -/
def isUsed (app : List (String × AppCircuit)) (name : String) : Bool :=
  app.any (fun p =>
    p.1 != name && p.2.compTypes.contains ("SUBCIRCUIT_" ++ name))

/-- `App.deleteSubcircuit` (with the confirmation dialog confirmed):
refuse when the circuit is unknown, not a subcircuit, or referenced;
otherwise remove it from the circuits map. -/
def deleteSubcircuit (app : List (String × AppCircuit)) (name : String) :
    List (String × AppCircuit) :=
  match app.find? (fun p => p.1 == name) with
  | none => app
  | some p =>
    if !p.2.isSubcircuit then app
    else if isUsed app name then app
    else app.filter (fun q => q.1 != name)

/-- The failing configuration for C4: circuit `main` holds a live
`SubcircuitComponent` instance of the subcircuit `sub`. -/
def c4App : List (String × AppCircuit) :=
  [("main", ⟨false, [subcircuitInstanceType]⟩),
   ("sub", ⟨true, ["INPUT", "OUTPUT"]⟩)]

/-- C4 evaluated at the failing input: the instance's type tag is the
constructor's `'SUBCIRCUIT'`, never `'SUBCIRCUIT_<name>'`, so the
reference scan finds nothing and the deletion proceeds: the definition
`sub` is removed from the circuits map even though `main` still holds an
instance of it — the claimed deletion guard does not hold on the code. -/
theorem deleteSubcircuit_guard_fails :
    subcircuitInstanceType ≠ "SUBCIRCUIT_" ++ "sub" ∧
    isUsed c4App "sub" = false ∧
    deleteSubcircuit c4App "sub" =
      [("main", ⟨false, [subcircuitInstanceType]⟩)] ∧
    (deleteSubcircuit c4App "sub").find? (fun p => p.1 == "sub") = none := by
  decide

end Logico
